import Mathlib

/-
Verification of the kadiya routing/optimization core against its
natural-language specification.

The definitions below are a shallow embedding of `src/kadiya/router.py`
and `src/kadiya/optimizer.py`.  Text is modelled as `List Char`
(Python strings are sequences of code points, as are Lean `List Char`
values obtained from `String.data`).  Regular-expression operations from
the source are embedded as executable functions on `List Char`, each one
specialized to the concrete pattern appearing in the source.

Modelling conventions:
* Python `\s` is modelled by the ASCII whitespace set (space, tab,
  newline, carriage return, vertical tab, form feed); the rare non-ASCII
  Unicode whitespace characters are out of scope of every claim.
* Python word characters (`\w`, used by `\b`) are modelled as ASCII
  alphanumerics, underscore, and any code point at or above 0x80
  (Python treats Unicode letters/digits as word characters).
* `re.IGNORECASE` is modelled by ASCII lower-casing; the exotic Unicode
  case foldings (Kelvin sign etc.) are out of scope of every claim.
* Python floats: `int(x)` on the non-negative exact dyadic values of the
  token estimator equals integer division (the divisions by 2 and 4 are
  exact in binary floating point for all realizable lengths), and money
  arithmetic is modelled over `ℚ` with banker's rounding, matching
  `round(x, 6)` except for representation error of binary floats, which
  no claim probes.
-/

/-- ASCII whitespace, the characters matched by Python's `\s` on ASCII text. -/
def pyIsSpace (c : Char) : Bool :=
  c = ' ' || c = '\t' || c = '\n' || c = '\r' || c = '\x0b' || c = '\x0c'

/-- Word characters for Python's `\b` word boundaries (see header note). -/
def isWordChar (c : Char) : Bool :=
  c.isAlphanum || c = '_' || 0x80 ≤ c.toNat

/-- The character class `[඀-෿一-鿿぀-ヿ]` of
`RoutingContext._estimate_tokens`: Sinhala, CJK, Hiragana/Katakana. -/
def isDenseScript (c : Char) : Bool :=
  (0xD80 ≤ c.toNat && c.toNat ≤ 0xDFF) ||
  (0x4E00 ≤ c.toNat && c.toNat ≤ 0x9FFF) ||
  (0x3040 ≤ c.toNat && c.toNat ≤ 0x30FF)

/-- `RoutingContext._estimate_tokens` (router.py lines 47-65).
`int(sinhala_cjk / 2 + other / 4) + 1` for non-empty text, `0` for empty
text.  The float expression `s / 2 + o / 4` is exact dyadic arithmetic,
so its truncation equals `(2 * s + o) / 4` in natural-number division. -/
def estimateTokens (text : List Char) : Nat :=
  if text.isEmpty then 0
  else
    (2 * (text.filter isDenseScript).length +
      (text.length - (text.filter isDenseScript).length)) / 4 + 1

/-- C2: the token estimate is exactly 0 for empty text; for non-empty text
it equals the integer truncation of `d/2 + o/4` plus 1, where `d` counts
Sinhala/CJK/Hiragana/Katakana characters and `o` all other characters;
consequently it is at least 1 for every non-empty text (and trivially
non-negative, being a natural number). -/
theorem C2_token_estimator (text : List Char) :
    (text = [] → estimateTokens text = 0) ∧
    (text ≠ [] →
      estimateTokens text =
        ⌊(((text.filter isDenseScript).length : ℚ) / 2 +
          ((text.length - (text.filter isDenseScript).length : ℕ) : ℚ) / 4)⌋₊ + 1 ∧
      1 ≤ estimateTokens text) := by
  constructor
  · intro h
    simp [estimateTokens, h]
  · intro h
    have hne : text.isEmpty = false := by
      cases text with
      | nil => exact absurd rfl h
      | cons c cs => rfl
    set d := (text.filter isDenseScript).length with hd
    set o := text.length - d with ho
    have hcast : ((d : ℚ)) / 2 + ((o : ℕ) : ℚ) / 4 = ((2 * d + o : ℕ) : ℚ) / 4 := by
      push_cast
      ring
    constructor
    · rw [estimateTokens, hne, hcast, Nat.floor_div_ofNat, Nat.floor_natCast]
      simp
    · rw [estimateTokens, hne]
      simp

theorem C2_token_estimator_witness :
    estimateTokens "ab".data =
      ⌊((("ab".data.filter isDenseScript).length : ℚ) / 2 +
        (("ab".data.length - ("ab".data.filter isDenseScript).length : ℕ) : ℚ) / 4)⌋₊ + 1 ∧
    1 ≤ estimateTokens "ab".data :=
  (C2_token_estimator "ab".data).2 (by decide)

/-- Case-insensitive literal match of `w` (stored lower-case) at position
`i` of `s`, as under `re.IGNORECASE`. -/
def matchesAtCI (w : List Char) (s : List Char) (i : Nat) : Bool :=
  ((s.drop i).take w.length).map Char.toLower = w

/-- Python `\b` seen from the left: position `i` is at the start of the
string or preceded by a non-word character. -/
def boundaryBefore (s : List Char) (i : Nat) : Bool :=
  i == 0 || !(isWordChar (s.getD (i - 1) ' '))

/-- Python `\b` seen from the right: position `j` is at the end of the
string or holds a non-word character. -/
def boundaryAfter (s : List Char) (j : Nat) : Bool :=
  s.length ≤ j || !(isWordChar (s.getD j ' '))

/-- `re.search(r'\bw\b', s, re.IGNORECASE)` for a literal word `w`. -/
def hasBoundedWord (w : List Char) (s : List Char) : Bool :=
  (List.range (s.length + 1)).any fun i =>
    boundaryBefore s i && matchesAtCI w s i && boundaryAfter s (i + w.length)

/-- Length of the whitespace run of `s` starting at position `j`. -/
def wsCountFrom (s : List Char) (j : Nat) : Nat :=
  ((s.drop j).takeWhile pyIsSpace).length

/-- `n` ASCII digits at position `i` (Python `\d{n}`; the claims never
involve non-ASCII Unicode digits). -/
def digitsAt (s : List Char) (i n : Nat) : Bool :=
  i + n ≤ s.length && ((s.drop i).take n).all Char.isDigit

/-- `re.search(r'\bcredit\s*card\b', s, re.IGNORECASE)`. -/
def hasCreditCard (s : List Char) : Bool :=
  (List.range (s.length + 1)).any fun i =>
    boundaryBefore s i && matchesAtCI "credit".data s i &&
      (matchesAtCI "card".data s (i + 6 + wsCountFrom s (i + 6)) &&
       boundaryAfter s (i + 6 + wsCountFrom s (i + 6) + 4))

/-- `re.search(r'\bw1\b.*\bw2\b', s, re.IGNORECASE)` where `.` does not
match a newline (Python default). -/
def hasWordPairDotStar (w1 w2 : List Char) (s : List Char) : Bool :=
  (List.range (s.length + 1)).any fun i =>
    boundaryBefore s i && matchesAtCI w1 s i && boundaryAfter s (i + w1.length) &&
      ((List.range (s.length + 1)).any fun j =>
        i + w1.length ≤ j && boundaryBefore s j && matchesAtCI w2 s j &&
          boundaryAfter s (j + w2.length) &&
          !(((s.drop (i + w1.length)).take (j - (i + w1.length))).any fun c => c = '\n'))

/-- `re.search(r'\d{9}[vVxX]', s)` (Sri Lankan NIC shape). -/
def hasNicDigits (s : List Char) : Bool :=
  (List.range (s.length + 1)).any fun i =>
    digitsAt s i 9 &&
      (s.getD (i + 9) ' ' = 'v' || s.getD (i + 9) ' ' = 'V' ||
       s.getD (i + 9) ' ' = 'x' || s.getD (i + 9) ' ' = 'X') &&
      i + 10 ≤ s.length

/-- `re.search(r'\d{12}', s)`. -/
def hasTwelveDigits (s : List Char) : Bool :=
  (List.range (s.length + 1)).any fun i => digitsAt s i 12

/-- `re.search(r'\+94\d{9}', s)`. -/
def hasPlus94Phone (s : List Char) : Bool :=
  (List.range (s.length + 1)).any fun i =>
    s.getD i ' ' = '+' && s.getD (i + 1) ' ' = '9' && s.getD (i + 2) ' ' = '4' &&
      digitsAt s (i + 3) 9

/-- `re.search(r'0\d{9}', s)`. -/
def hasZeroPhone (s : List Char) : Bool :=
  (List.range (s.length + 1)).any fun i =>
    s.getD i ' ' = '0' && digitsAt s (i + 1) 9

/-- `ModelRouter._detect_sensitivity`: `bool` of a search for the joined
alternation of the SENSITIVITY_PATTERNS (router.py lines 138-152, 235-237);
true iff any alternative matches anywhere. -/
def detectSensitivity (s : List Char) : Bool :=
  hasBoundedWord "nic".data s || hasBoundedWord "password".data s ||
  hasCreditCard s || hasWordPairDotStar "bank".data "account".data s ||
  hasBoundedWord "confidential".data s || hasBoundedWord "private".data s ||
  hasBoundedWord "secret".data s ||
  hasNicDigits s || hasTwelveDigits s || hasPlus94Phone s || hasZeroPhone s

/-- `re.search(r'\{\s*"', s)` (the brace is `\x7b`). -/
def hasBraceQuote (s : List Char) : Bool :=
  (List.range (s.length + 1)).any fun i =>
    s.getD i ' ' = '\x7b' && s.getD (i + 1 + wsCountFrom s (i + 1)) ' ' = '"'

/-- `ModelRouter._detect_json_requirement` over JSON_PATTERNS
(router.py lines 129-135, 231-233). -/
def detectJson (s : List Char) : Bool :=
  hasBoundedWord "json".data s || hasBoundedWord "structured".data s ||
  hasBoundedWord "schema".data s || hasBraceQuote s ||
  hasWordPairDotStar "parse".data "output".data s

/-- `RoutingTier` (router.py lines 23-28). -/
inductive RoutingTier
  | CHEAP_GENERAL
  | STRUCTURED
  | FALLBACK
  | SENSITIVE
  deriving DecidableEq

/-- `TierConfig` (router.py lines 77-82). -/
structure TierConfig where
  models : List String
  max_input_tokens : Nat := 4000
  max_output_tokens : Nat := 1024

/-- `ModelRouter.DEFAULT_TIERS` (router.py lines 93-114). -/
def DEFAULT_TIERS : RoutingTier → TierConfig
  | .CHEAP_GENERAL =>
    { models := ["deepseek/deepseek-chat", "groq/llama-3.3-70b-versatile"],
      max_input_tokens := 4000, max_output_tokens := 1024 }
  | .STRUCTURED =>
    { models := ["anthropic/claude-3-haiku-20240307", "openai/gpt-4o-mini"],
      max_input_tokens := 8000, max_output_tokens := 2048 }
  | .FALLBACK =>
    { models := ["openai/gpt-4o-mini", "anthropic/claude-3-haiku-20240307"],
      max_input_tokens := 16000, max_output_tokens := 4096 }
  | .SENSITIVE =>
    { models := ["anthropic/claude-3-haiku-20240307"],
      max_input_tokens := 8000, max_output_tokens := 2048 }

/-- `ModelRouter.INTENT_TOKEN_LIMITS` (router.py lines 117-126). -/
def INTENT_TOKEN_LIMITS : List (String × Nat) :=
  [("translate", 512), ("summarize", 256), ("format", 256), ("format_whatsapp", 256),
   ("format_telegram", 512), ("pii_redact", 1024), ("search", 512), ("general", 1024)]

/-- `RoutingContext` (router.py lines 31-45): the routing inputs together
with the derived `input_tokens` field. -/
structure RoutingContext where
  intent : String
  input_text : List Char
  needs_json : Bool
  sensitivity : Bool
  retry_count : Nat
  input_tokens : Nat

/-- `RoutingContext.__post_init__`: construction always recomputes
`input_tokens` from `input_text`. -/
def mkRoutingContext (intent : String) (input_text : List Char)
    (needs_json sensitivity : Bool) (retry_count : Nat) : RoutingContext :=
  { intent := intent, input_text := input_text, needs_json := needs_json,
    sensitivity := sensitivity, retry_count := retry_count,
    input_tokens := estimateTokens input_text }

/-- `RoutingDecision` (router.py lines 68-74). -/
structure RoutingDecision where
  tier : RoutingTier
  model : String
  max_output_tokens : Nat
  reason : String

/-- The rule-evaluation cascade of `ModelRouter.route` (router.py lines
186-207): auto-detection of `needs_json` and `sensitivity`, then the
five-rule priority chain yielding tier and reason. -/
def chooseTier (ctx : RoutingContext) : RoutingTier × String :=
  let needs_json := ctx.needs_json || detectJson ctx.input_text
  let sensitivity := ctx.sensitivity || detectSensitivity ctx.input_text
  if sensitivity then (.SENSITIVE, "sensitive_content_detected")
  else if 1 < ctx.retry_count then
    (.FALLBACK, "retry_escalation_count_" ++ toString ctx.retry_count)
  else if needs_json then (.STRUCTURED, "json_output_required")
  else if 4000 < ctx.input_tokens then
    (.STRUCTURED, "large_input_" ++ toString ctx.input_tokens ++ "_tokens")
  else (.CHEAP_GENERAL, "default_cheap_routing")

/-- `ModelRouter.route` (router.py lines 169-229): tier/reason from the
cascade, model = first entry of the tier's list with the hardcoded
default for an empty list, output ceiling from the intent table with the
tier default as fallback. -/
def route (tiers : RoutingTier → TierConfig) (ctx : RoutingContext) : RoutingDecision :=
  let tr := chooseTier ctx
  let cfg := tiers tr.1
  { tier := tr.1,
    model := match cfg.models with
      | [] => "deepseek/deepseek-chat"
      | m :: _ => m,
    max_output_tokens := (List.lookup ctx.intent INTENT_TOKEN_LIMITS).getD cfg.max_output_tokens,
    reason := tr.2 }

/-- C1 counterexample: a context with `retry_count = 2` and
`sensitivity = false` whose `input_text` triggers the sensitivity
auto-detection (`\bpassword\b`), so `route` returns SENSITIVE, not
FALLBACK — the claim's "regardless of input_text" fails. -/
theorem C1_counterexample :
    (route DEFAULT_TIERS (mkRoutingContext "general" "password".data false false 2)).tier =
      RoutingTier.SENSITIVE ∧
    RoutingTier.SENSITIVE ≠ RoutingTier.FALLBACK := by
  exact ⟨by decide, by decide⟩

/-- C1 (amended): for every context with `retry_count > 1` and
`sensitivity = false` whose `input_text` does not match any sensitivity
pattern (so auto-detection also stays false), `route` returns tier
FALLBACK with reason `retry_escalation_count_<retry_count>`, regardless
of intent and `needs_json`. -/
theorem C1_retry_escalation (tiers : RoutingTier → TierConfig) (intent : String)
    (input_text : List Char) (needs_json : Bool) (retry_count : Nat)
    (hretry : 1 < retry_count)
    (hclean : detectSensitivity input_text = false) :
    (route tiers (mkRoutingContext intent input_text needs_json false retry_count)).tier =
      RoutingTier.FALLBACK ∧
    (route tiers (mkRoutingContext intent input_text needs_json false retry_count)).reason =
      "retry_escalation_count_" ++ toString retry_count := by
  constructor <;> simp [route, chooseTier, mkRoutingContext, hclean, hretry]

theorem C1_retry_escalation_witness :
    (route DEFAULT_TIERS (mkRoutingContext "general" "hello".data false false 2)).tier =
      RoutingTier.FALLBACK ∧
    (route DEFAULT_TIERS (mkRoutingContext "general" "hello".data false false 2)).reason =
      "retry_escalation_count_" ++ toString 2 :=
  C1_retry_escalation DEFAULT_TIERS "general" "hello".data false 2 (by decide) (by decide)

/-- C8: `route` never fails for lack of configuration: if the chosen
tier's model list is empty the decision's model is the hardcoded default
"deepseek/deepseek-chat"; if the list is non-empty the model is its
first entry. -/
theorem C8_empty_model_list_default (tiers : RoutingTier → TierConfig) (ctx : RoutingContext) :
    ((tiers (route tiers ctx).tier).models = [] →
      (route tiers ctx).model = "deepseek/deepseek-chat") ∧
    (∀ m ms, (tiers (route tiers ctx).tier).models = m :: ms →
      (route tiers ctx).model = m) := by
  have htier : (route tiers ctx).tier = (chooseTier ctx).1 := rfl
  constructor
  · intro h
    rw [htier] at h
    simp [route, h]
  · intro m ms h
    rw [htier] at h
    simp [route, h]

/-- A tier table with every model list empty, for the C8 witness. -/
def emptyTiers : RoutingTier → TierConfig := fun _ => { models := [] }

theorem C8_empty_model_list_default_witness :
    (route emptyTiers (mkRoutingContext "general" [] false false 0)).model =
      "deepseek/deepseek-chat" ∧
    (route DEFAULT_TIERS (mkRoutingContext "general" [] false false 0)).model =
      "deepseek/deepseek-chat" :=
  ⟨(C8_empty_model_list_default emptyTiers _).1 rfl,
   (C8_empty_model_list_default DEFAULT_TIERS _).2 "deepseek/deepseek-chat"
     ["groq/llama-3.3-70b-versatile"] (by decide)⟩

/-- `re.sub(r'\s+', ' ', text)` (optimizer.py line 91, first half):
every maximal whitespace run becomes a single space.  The flag records
whether the previous character was whitespace (i.e. whether we are in
the middle of a run already rewritten). -/
def collapseWsGo : Bool → List Char → List Char
  | _, [] => []
  | prevSp, c :: cs =>
    if pyIsSpace c then
      if prevSp then collapseWsGo true cs else ' ' :: collapseWsGo true cs
    else c :: collapseWsGo false cs

def collapseWs (s : List Char) : List Char := collapseWsGo false s

/-- Python `str.strip()` on text whose only purpose here is whitespace
removal at both ends (optimizer.py line 91, `.strip()`). -/
def stripWs (s : List Char) : List Char :=
  (((s.dropWhile pyIsSpace).reverse).dropWhile pyIsSpace).reverse

/-- The scanning loop of `re.sub(pattern, repl, s)` for a pattern that
cannot match the empty string: at each position try the matcher `m`
(which receives the previous character of the original string, for word
boundaries, and returns the replacement text and the rest of the input
after the match); on success emit the replacement and continue after the
match, otherwise emit one character and advance.  `fuel` is an upper
bound on the number of steps; every matcher used here consumes at least
one character on success, so `fuel = s.length` never runs out and the
fuel-exhausted branch is unreachable. -/
def pySubGo (m : Option Char → List Char → Option (List Char × List Char)) :
    Nat → Option Char → List Char → List Char
  | _, _, [] => []
  | 0, _, s => s
  | fuel + 1, prev, c :: cs =>
    match m prev (c :: cs) with
    | some (r, rest) =>
      r ++ pySubGo m fuel (((c :: cs).take ((c :: cs).length - rest.length)).getLast?) rest
    | none => c :: pySubGo m fuel (some c) cs

def pySub (m : Option Char → List Char → Option (List Char × List Char))
    (s : List Char) : List Char :=
  pySubGo m s.length none s

/-- Case-insensitive literal match at the head of `s`; returns the rest. -/
def matchCI : List Char → List Char → Option (List Char)
  | [], s => some s
  | _ :: _, [] => none
  | a :: w, c :: s => if c.toLower = a then matchCI w s else none

/-- Greedy `\s+` at the head of `s`; returns the rest. -/
def wsRun1 (s : List Char) : Option (List Char) :=
  match s with
  | c :: cs => if pyIsSpace c then some (cs.dropWhile pyIsSpace) else none
  | [] => none

/-- A compression pattern `w1\s+w2\s+...\s+wn\s+` (words joined by `\s+`
with a trailing `\s+`), matched greedily at the head of `s`. -/
def matchWords : List (List Char) → List Char → Option (List Char)
  | [], _ => none
  | [w], s => (matchCI w s).bind wsRun1
  | w :: w2 :: ws, s =>
    (matchCI w s).bind fun s1 => (wsRun1 s1).bind (matchWords (w2 :: ws))

/-- Matcher for one entry of the COMPRESSIONS table. -/
def compMatch (p : List (List Char)) (repl : List Char) :
    Option Char → List Char → Option (List Char × List Char) :=
  fun _ s => (matchWords p s).map fun rest => (repl, rest)

/-- `PromptOptimizer.COMPRESSIONS` (optimizer.py lines 40-58), each
pattern split into its literal words (the `\s+` separators and the
trailing `\s+` are implicit). -/
def COMPRESSIONS : List (List String × String) :=
  [(["please"], ""),
   (["could", "you"], ""),
   (["would", "you"], ""),
   (["i", "would", "like", "you", "to"], ""),
   (["i", "want", "you", "to"], ""),
   (["can", "you"], ""),
   (["in", "order", "to"], "to "),
   (["due", "to", "the", "fact", "that"], "because "),
   (["at", "this", "point", "in", "time"], "now "),
   (["in", "the", "event", "that"], "if "),
   (["for", "the", "purpose", "of"], "to "),
   (["with", "regards", "to"], "about "),
   (["with", "respect", "to"], "about "),
   (["a", "large", "number", "of"], "many "),
   (["a", "small", "number", "of"], "few "),
   (["in", "spite", "of", "the", "fact", "that"], "although "),
   (["the", "fact", "that"], "that ")]

/-- Step 2 of `PromptOptimizer.optimize` (optimizer.py lines 94-95): the
compiled compression substitutions applied in table order. -/
def applyCompressions (s : List Char) : List Char :=
  COMPRESSIONS.foldl
    (fun t pr => pySub (compMatch (pr.1.map String.data) pr.2.data) t) s

/-- Matcher for `re.sub(r'\.{2,}', '.', text)` (optimizer.py line 98). -/
def dotsMatch : Option Char → List Char → Option (List Char × List Char) :=
  fun _ s =>
    match s with
    | '.' :: '.' :: rest => some (['.'], rest.dropWhile fun c => c = '.')
    | _ => none

def isPunctCh (c : Char) : Bool :=
  c = '.' || c = ',' || c = '!' || c = '?' || c = ';' || c = ':'

/-- Matcher for `re.sub(r'\s+([.,!?;:])', r'\1', text)` (optimizer.py
line 99). -/
def spacePunctMatch : Option Char → List Char → Option (List Char × List Char) :=
  fun _ s =>
    match s with
    | c :: cs =>
      if pyIsSpace c then
        match cs.dropWhile pyIsSpace with
        | p :: rest => if isPunctCh p then some ([p], rest) else none
        | [] => none
      else none
    | [] => none

/-- Matcher for `re.sub(r'\n{3,}', '\n\n', text)` (optimizer.py line 102). -/
def nlMatch : Option Char → List Char → Option (List Char × List Char) :=
  fun _ s =>
    match s with
    | '\n' :: '\n' :: '\n' :: rest =>
      some (['\n', '\n'], rest.dropWhile fun c => c = '\n')
    | _ => none

/-- Matcher for one filler pattern `\bword\b\s*` of
`PromptOptimizer._aggressive_compress` (optimizer.py lines 120-136). -/
def noWordBefore (prev : Option Char) : Bool :=
  match prev with
  | none => true
  | some p => !(isWordChar p)

def noWordAtHead (s : List Char) : Bool :=
  match s with
  | [] => true
  | c :: _ => !(isWordChar c)

def fillerMatch (w : List Char) :
    Option Char → List Char → Option (List Char × List Char) :=
  fun prev s =>
    if noWordBefore prev then
      match matchCI w s with
      | some s1 =>
        if noWordAtHead s1 then some ([], s1.dropWhile pyIsSpace) else none
      | none => none
    else none

/-- The filler-word list of `_aggressive_compress`. -/
def FILLERS : List String :=
  ["actually", "basically", "essentially", "simply", "just", "really", "very", "quite"]

/-- `PromptOptimizer._aggressive_compress`. -/
def aggressiveCompress (s : List Char) : List Char :=
  FILLERS.foldl (fun t w => pySub (fillerMatch w.data) t) s

/-- `OptimizationResult` (optimizer.py lines 18-25). -/
structure OptimizationResult where
  text : List Char
  original_length : Nat
  optimized_length : Nat
  tokens_saved : Int
  strategy : String

/-- `PromptOptimizer.optimize` (optimizer.py lines 77-118): whitespace
normalization, the compression table, punctuation collapsing, newline
collapsing, the optional aggressive pass, and the flat
`(len(original) - len(optimized)) // 4` tokens-saved estimate floored
at 0. -/
def optimizePipeline (aggressive : Bool) (text : List Char) : List Char :=
  if aggressive then
    aggressiveCompress (pySub nlMatch (pySub spacePunctMatch (pySub dotsMatch
      (applyCompressions (stripWs (collapseWs text))))))
  else
    pySub nlMatch (pySub spacePunctMatch (pySub dotsMatch
      (applyCompressions (stripWs (collapseWs text)))))

def optimize (aggressive : Bool) (text : List Char) : OptimizationResult :=
  { text := optimizePipeline aggressive text,
    original_length := text.length,
    optimized_length := (optimizePipeline aggressive text).length,
    tokens_saved :=
      max 0 (((text.length : Int) - ((optimizePipeline aggressive text).length : Int)).fdiv 4),
    strategy := "prompt_compression" }

example : (optimize false "a . .".data).text = "a..".data := by decide
example : (optimize false "a..".data).text = "a.".data := by decide
example : (optimize false "a      b".data).text = "a b".data := by decide
example : (optimize false "could you please translate".data).text = "translate".data := by decide
example : (optimize true "this is just a test".data).text = "this is a test".data := by decide

theorem collapseWsGo_length_le : ∀ (b : Bool) (s : List Char),
    (collapseWsGo b s).length ≤ s.length := by
  intro b s
  induction s generalizing b with
  | nil => simp [collapseWsGo]
  | cons c cs ih =>
    by_cases hc : pyIsSpace c
    · cases b with
      | true => simp [collapseWsGo, hc]; exact le_trans (ih true) (Nat.le_succ _)
      | false => simp [collapseWsGo, hc]; exact ih true
    · simp [collapseWsGo, hc]; exact ih false

theorem collapseWs_length_le (s : List Char) : (collapseWs s).length ≤ s.length :=
  collapseWsGo_length_le false s

theorem stripWs_length_le (s : List Char) : (stripWs s).length ≤ s.length := by
  unfold stripWs
  calc ((((s.dropWhile pyIsSpace).reverse).dropWhile pyIsSpace).reverse).length
      = (((s.dropWhile pyIsSpace).reverse).dropWhile pyIsSpace).length := List.length_reverse _
    _ ≤ ((s.dropWhile pyIsSpace).reverse).length := (List.dropWhile_sublist _).length_le
    _ = (s.dropWhile pyIsSpace).length := List.length_reverse _
    _ ≤ s.length := (List.dropWhile_sublist _).length_le

theorem matchCI_length : ∀ (w s s1 : List Char), matchCI w s = some s1 →
    s1.length + w.length = s.length := by
  intro w
  induction w with
  | nil => intro s s1 h; simp [matchCI] at h; simp [h]
  | cons a w ih =>
    intro s s1 h
    cases s with
    | nil => simp [matchCI] at h
    | cons c cs =>
      by_cases hc : c.toLower = a
      · simp [matchCI, hc] at h
        have := ih cs s1 h
        simp; omega
      · simp [matchCI, hc] at h

theorem matchCI_mem : ∀ (w s s1 : List Char), matchCI w s = some s1 →
    ∀ c ∈ s1, c ∈ s := by
  intro w
  induction w with
  | nil => intro s s1 h; simp [matchCI] at h; simp [h]
  | cons a w ih =>
    intro s s1 h
    cases s with
    | nil => simp [matchCI] at h
    | cons c cs =>
      by_cases hc : c.toLower = a
      · simp [matchCI, hc] at h
        intro x hx
        exact List.mem_cons_of_mem c (ih cs s1 h x hx)
      · simp [matchCI, hc] at h

theorem wsRun1_length (s s1 : List Char) (h : wsRun1 s = some s1) :
    s1.length < s.length := by
  cases s with
  | nil => simp [wsRun1] at h
  | cons c cs =>
    by_cases hc : pyIsSpace c
    · simp [wsRun1, hc] at h
      subst h
      exact Nat.lt_succ_of_le ((List.dropWhile_sublist _).length_le)
    · simp [wsRun1, hc] at h

theorem wsRun1_mem (s s1 : List Char) (h : wsRun1 s = some s1) :
    ∀ c ∈ s1, c ∈ s := by
  cases s with
  | nil => simp [wsRun1] at h
  | cons c cs =>
    by_cases hc : pyIsSpace c
    · simp [wsRun1, hc] at h
      subst h
      intro x hx
      exact List.mem_cons_of_mem c (List.dropWhile_subset pyIsSpace hx)
    · simp [wsRun1, hc] at h

/-- The minimal number of characters a compression pattern can consume:
its words plus one whitespace character after each word. -/
def patMin (ws : List (List Char)) : Nat := (ws.map List.length).sum + ws.length

theorem matchWords_length : ∀ (ws : List (List Char)) (s rest : List Char),
    matchWords ws s = some rest → rest.length + patMin ws ≤ s.length := by
  intro ws
  induction ws with
  | nil => intro s rest h; simp [matchWords] at h
  | cons w tail ih =>
    intro s rest h
    cases tail with
    | nil =>
      simp [matchWords, Option.bind_eq_some] at h
      obtain ⟨s1, hci, hws⟩ := h
      have h1 := matchCI_length w s s1 hci
      have h2 := wsRun1_length s1 rest hws
      simp [patMin]
      omega
    | cons w2 tail2 =>
      simp [matchWords, Option.bind_eq_some] at h
      obtain ⟨s1, hci, s2, hws, hmw⟩ := h
      have h1 := matchCI_length w s s1 hci
      have h2 := wsRun1_length s1 s2 hws
      have h3 := ih s2 rest hmw
      simp [patMin] at h3 ⊢
      omega

theorem matchWords_mem : ∀ (ws : List (List Char)) (s rest : List Char),
    matchWords ws s = some rest → ∀ c ∈ rest, c ∈ s := by
  intro ws
  induction ws with
  | nil => intro s rest h; simp [matchWords] at h
  | cons w tail ih =>
    intro s rest h
    cases tail with
    | nil =>
      simp [matchWords, Option.bind_eq_some] at h
      obtain ⟨s1, hci, hws⟩ := h
      intro c hc
      exact matchCI_mem w s s1 hci c (wsRun1_mem s1 rest hws c hc)
    | cons w2 tail2 =>
      simp [matchWords, Option.bind_eq_some] at h
      obtain ⟨s1, hci, s2, hws, hmw⟩ := h
      intro c hc
      exact matchCI_mem w s s1 hci c (wsRun1_mem s1 s2 hws c (ih s2 rest hmw c hc))

theorem pySubGo_cons (m : Option Char → List Char → Option (List Char × List Char))
    (n : Nat) (prev : Option Char) (c : Char) (cs : List Char) :
    pySubGo m (n + 1) prev (c :: cs) =
      match m prev (c :: cs) with
      | some (r, rest) =>
        r ++ pySubGo m n (((c :: cs).take ((c :: cs).length - rest.length)).getLast?) rest
      | none => c :: pySubGo m n (some c) cs := rfl

theorem pySubGo_length_le
    (m : Option Char → List Char → Option (List Char × List Char))
    (Hm : ∀ prev s r rest, m prev s = some (r, rest) →
      r.length + rest.length ≤ s.length ∧ rest.length < s.length) :
    ∀ (fuel : Nat) (prev : Option Char) (s : List Char), s.length ≤ fuel →
      (pySubGo m fuel prev s).length ≤ s.length := by
  intro fuel
  induction fuel with
  | zero =>
    intro prev s hs
    cases s with
    | nil => simp [pySubGo]
    | cons c cs => simp at hs
  | succ n ih =>
    intro prev s hs
    cases s with
    | nil => simp [pySubGo]
    | cons c cs =>
      simp only [List.length_cons] at hs
      cases h : m prev (c :: cs) with
      | none =>
        rw [pySubGo_cons, h]
        simp only [List.length_cons]
        have := ih (some c) cs (by omega)
        omega
      | some pr =>
        obtain ⟨r, rest⟩ := pr
        have hmm := Hm prev (c :: cs) r rest h
        simp only [List.length_cons] at hmm
        have hrest : rest.length ≤ n := by omega
        rw [pySubGo_cons, h]
        simp only [List.length_append, List.length_cons]
        refine le_trans (Nat.add_le_add_left (ih _ rest hrest) _) ?_
        omega

theorem pySubGo_eq_or_lt
    (m : Option Char → List Char → Option (List Char × List Char))
    (Hm : ∀ prev s r rest, m prev s = some (r, rest) →
      r.length + rest.length < s.length) :
    ∀ (fuel : Nat) (prev : Option Char) (s : List Char), s.length ≤ fuel →
      pySubGo m fuel prev s = s ∨ (pySubGo m fuel prev s).length < s.length := by
  have Hm' : ∀ prev s r rest, m prev s = some (r, rest) →
      r.length + rest.length ≤ s.length ∧ rest.length < s.length := by
    intro prev s r rest h
    have := Hm prev s r rest h
    omega
  intro fuel
  induction fuel with
  | zero =>
    intro prev s hs
    cases s with
    | nil => left; simp [pySubGo]
    | cons c cs => simp at hs
  | succ n ih =>
    intro prev s hs
    cases s with
    | nil => left; simp [pySubGo]
    | cons c cs =>
      simp only [List.length_cons] at hs
      cases h : m prev (c :: cs) with
      | none =>
        rcases ih (some c) cs (by omega) with heq | hlt
        · left
          rw [pySubGo_cons, h, heq]
        · right
          rw [pySubGo_cons, h]
          simp only [List.length_cons]
          omega
      | some pr =>
        obtain ⟨r, rest⟩ := pr
        have hmm := Hm prev (c :: cs) r rest h
        simp only [List.length_cons] at hmm
        have hrest : rest.length ≤ n := by omega
        right
        rw [pySubGo_cons, h]
        simp only [List.length_append, List.length_cons]
        refine lt_of_le_of_lt (Nat.add_le_add_left (pySubGo_length_le m Hm' n _ rest hrest) _) ?_
        omega

theorem pySubGo_pred (P : Char → Prop)
    (m : Option Char → List Char → Option (List Char × List Char))
    (Hm : ∀ prev s r rest, (∀ c ∈ s, P c) → m prev s = some (r, rest) →
      (∀ c ∈ r, P c) ∧ (∀ c ∈ rest, c ∈ s)) :
    ∀ (fuel : Nat) (prev : Option Char) (s : List Char), (∀ c ∈ s, P c) →
      ∀ x ∈ pySubGo m fuel prev s, P x := by
  intro fuel
  induction fuel with
  | zero =>
    intro prev s hs
    cases s with
    | nil => simp [pySubGo]
    | cons c cs => simpa [pySubGo] using hs
  | succ n ih =>
    intro prev s hs
    cases s with
    | nil => simp [pySubGo]
    | cons c cs =>
      cases h : m prev (c :: cs) with
      | none =>
        intro x hx
        rw [pySubGo_cons, h] at hx
        rcases List.mem_cons.mp hx with rfl | hx
        · exact hs x (List.mem_cons_self x cs)
        · exact ih (some c) cs (fun d hd => hs d (List.mem_cons_of_mem c hd)) x hx
      | some pr =>
        obtain ⟨r, rest⟩ := pr
        have hmm := Hm prev (c :: cs) r rest hs h
        intro x hx
        rw [pySubGo_cons, h] at hx
        rcases List.mem_append.mp hx with hx | hx
        · exact hmm.1 x hx
        · exact ih _ rest (fun d hd => hs d (hmm.2 d hd)) x hx

theorem pySub_length_le
    (m : Option Char → List Char → Option (List Char × List Char))
    (Hm : ∀ prev s r rest, m prev s = some (r, rest) →
      r.length + rest.length ≤ s.length ∧ rest.length < s.length)
    (s : List Char) : (pySub m s).length ≤ s.length :=
  pySubGo_length_le m Hm s.length none s le_rfl

theorem pySub_eq_or_lt
    (m : Option Char → List Char → Option (List Char × List Char))
    (Hm : ∀ prev s r rest, m prev s = some (r, rest) →
      r.length + rest.length < s.length)
    (s : List Char) : pySub m s = s ∨ (pySub m s).length < s.length :=
  pySubGo_eq_or_lt m Hm s.length none s le_rfl

theorem pySub_pred (P : Char → Prop)
    (m : Option Char → List Char → Option (List Char × List Char))
    (Hm : ∀ prev s r rest, (∀ c ∈ s, P c) → m prev s = some (r, rest) →
      (∀ c ∈ r, P c) ∧ (∀ c ∈ rest, c ∈ s))
    (s : List Char) (hs : ∀ c ∈ s, P c) : ∀ x ∈ pySub m s, P x :=
  pySubGo_pred P m Hm s.length none s hs

theorem compMatch_strict (p : List (List Char)) (repl : List Char)
    (hp : repl.length < patMin p) :
    ∀ prev s r rest, compMatch p repl prev s = some (r, rest) →
      r.length + rest.length < s.length := by
  intro prev s r rest h
  simp only [compMatch, Option.map_eq_some'] at h
  obtain ⟨a, hmw, heq⟩ := h
  obtain ⟨rfl, rfl⟩ := Prod.mk.injEq .. ▸ heq
  have := matchWords_length p s a hmw
  omega

theorem compMatch_nonexp (p : List (List Char)) (repl : List Char)
    (hp : repl.length < patMin p) :
    ∀ prev s r rest, compMatch p repl prev s = some (r, rest) →
      r.length + rest.length ≤ s.length ∧ rest.length < s.length := by
  intro prev s r rest h
  have h1 := compMatch_strict p repl hp prev s r rest h
  simp only [compMatch, Option.map_eq_some'] at h
  obtain ⟨a, hmw, heq⟩ := h
  obtain ⟨rfl, rfl⟩ := Prod.mk.injEq .. ▸ heq
  have h2 := matchWords_length p s a hmw
  have hpm : 1 ≤ patMin p := by
    cases p with
    | nil => simp [matchWords] at hmw
    | cons w tail => simp [patMin]; omega
  omega

/-- Every entry of the compression table replaces a match by strictly
fewer characters than the shortest text the pattern can match. -/
theorem compressions_strict :
    ∀ pr ∈ COMPRESSIONS, pr.2.data.length < patMin (pr.1.map String.data) := by
  decide

theorem compFold_length_le (l : List (List String × String))
    (hl : ∀ pr ∈ l, pr.2.data.length < patMin (pr.1.map String.data)) :
    ∀ s : List Char,
      (l.foldl (fun t pr => pySub (compMatch (pr.1.map String.data) pr.2.data) t) s).length ≤
        s.length := by
  induction l with
  | nil => intro s; simp
  | cons pr tail ih =>
    intro s
    simp only [List.foldl_cons]
    refine le_trans (ih (fun q hq => hl q (List.mem_cons_of_mem pr hq)) _) ?_
    exact pySub_length_le _
      (compMatch_nonexp _ _ (hl pr (List.mem_cons_self pr tail))) s

theorem compFold_eq_or_lt (l : List (List String × String))
    (hl : ∀ pr ∈ l, pr.2.data.length < patMin (pr.1.map String.data)) :
    ∀ s : List Char,
      l.foldl (fun t pr => pySub (compMatch (pr.1.map String.data) pr.2.data) t) s = s ∨
      (l.foldl (fun t pr => pySub (compMatch (pr.1.map String.data) pr.2.data) t) s).length <
        s.length := by
  induction l with
  | nil => intro s; left; rfl
  | cons pr tail ih =>
    intro s
    simp only [List.foldl_cons]
    rcases pySub_eq_or_lt _
      (compMatch_strict _ _ (hl pr (List.mem_cons_self pr tail))) s with heq | hlt
    · rw [heq]
      exact ih (fun q hq => hl q (List.mem_cons_of_mem pr hq)) s
    · right
      exact lt_of_le_of_lt
        (compFold_length_le tail (fun q hq => hl q (List.mem_cons_of_mem pr hq)) _) hlt

theorem applyCompressions_length_le (s : List Char) :
    (applyCompressions s).length ≤ s.length :=
  compFold_length_le COMPRESSIONS compressions_strict s

theorem applyCompressions_eq_or_lt (s : List Char) :
    applyCompressions s = s ∨ (applyCompressions s).length < s.length :=
  compFold_eq_or_lt COMPRESSIONS compressions_strict s

theorem dotsMatch_strict :
    ∀ prev s r rest, dotsMatch prev s = some (r, rest) →
      r.length + rest.length < s.length := by
  intro prev s r rest h
  unfold dotsMatch at h
  split at h
  next rest0 =>
    obtain ⟨rfl, rfl⟩ := Prod.mk.injEq .. ▸ (Option.some.injEq .. ▸ h)
    have := (List.dropWhile_sublist (l := rest0) (fun c => c = '.')).length_le
    simp
    omega
  next => exact absurd h (by simp)

theorem spacePunctMatch_strict :
    ∀ prev s r rest, spacePunctMatch prev s = some (r, rest) →
      r.length + rest.length < s.length := by
  intro prev s r rest h
  unfold spacePunctMatch at h
  split at h
  next c cs =>
    by_cases hc : pyIsSpace c
    · rw [if_pos hc] at h
      split at h
      next p rest0 hdw =>
        by_cases hp : isPunctCh p
        · rw [if_pos hp] at h
          obtain ⟨rfl, rfl⟩ := Prod.mk.injEq .. ▸ (Option.some.injEq .. ▸ h)
          have h1 : (cs.dropWhile pyIsSpace).length ≤ cs.length :=
            (List.dropWhile_sublist _).length_le
          rw [hdw] at h1
          simp at h1 ⊢
          omega
        · rw [if_neg hp] at h
          exact absurd h (by simp)
      next => exact absurd h (by simp)
    · rw [if_neg hc] at h
      exact absurd h (by simp)
  next => exact absurd h (by simp)

theorem nlMatch_strict :
    ∀ prev s r rest, nlMatch prev s = some (r, rest) →
      r.length + rest.length < s.length := by
  intro prev s r rest h
  unfold nlMatch at h
  split at h
  next rest0 =>
    obtain ⟨rfl, rfl⟩ := Prod.mk.injEq .. ▸ (Option.some.injEq .. ▸ h)
    have := (List.dropWhile_sublist (l := rest0) (fun c => c = '\n')).length_le
    simp
    omega
  next => exact absurd h (by simp)

theorem fillerMatch_strict (w : List Char) (hw : 1 ≤ w.length) :
    ∀ prev s r rest, fillerMatch w prev s = some (r, rest) →
      r.length + rest.length < s.length := by
  intro prev s r rest h
  unfold fillerMatch at h
  split at h
  · split at h
    next s1 hci =>
      split at h
      · obtain ⟨rfl, rfl⟩ := Prod.mk.injEq .. ▸ (Option.some.injEq .. ▸ h)
        have h1 := matchCI_length w s s1 hci
        have h2 : (s1.dropWhile pyIsSpace).length ≤ s1.length :=
          (List.dropWhile_sublist _).length_le
        simp
        omega
      · exact absurd h (by simp)
    next => exact absurd h (by simp)
  · exact absurd h (by simp)
theorem fillers_nonempty : ∀ w ∈ FILLERS, 1 ≤ w.data.length := by decide

theorem fillerFold_length_le (l : List String) (hl : ∀ w ∈ l, 1 ≤ w.data.length) :
    ∀ s : List Char,
      (l.foldl (fun t w => pySub (fillerMatch w.data) t) s).length ≤ s.length := by
  induction l with
  | nil => intro s; simp
  | cons w tail ih =>
    intro s
    simp only [List.foldl_cons]
    refine le_trans (ih (fun q hq => hl q (List.mem_cons_of_mem w hq)) _) ?_
    refine pySub_length_le _ ?_ s
    intro prev s' r rest h
    have := fillerMatch_strict w.data (hl w (List.mem_cons_self w tail)) prev s' r rest h
    omega

theorem fillerFold_eq_or_lt (l : List String) (hl : ∀ w ∈ l, 1 ≤ w.data.length) :
    ∀ s : List Char,
      l.foldl (fun t w => pySub (fillerMatch w.data) t) s = s ∨
      (l.foldl (fun t w => pySub (fillerMatch w.data) t) s).length < s.length := by
  induction l with
  | nil => intro s; left; rfl
  | cons w tail ih =>
    intro s
    simp only [List.foldl_cons]
    rcases pySub_eq_or_lt _
      (fillerMatch_strict w.data (hl w (List.mem_cons_self w tail))) s with heq | hlt
    · rw [heq]
      exact ih (fun q hq => hl q (List.mem_cons_of_mem w hq)) s
    · right
      exact lt_of_le_of_lt
        (fillerFold_length_le tail (fun q hq => hl q (List.mem_cons_of_mem w hq)) _) hlt

theorem aggressiveCompress_length_le (s : List Char) :
    (aggressiveCompress s).length ≤ s.length :=
  fillerFold_length_le FILLERS fillers_nonempty s

theorem aggressiveCompress_eq_or_lt (s : List Char) :
    aggressiveCompress s = s ∨ (aggressiveCompress s).length < s.length :=
  fillerFold_eq_or_lt FILLERS fillers_nonempty s

theorem strict_to_nonexp
    (m : Option Char → List Char → Option (List Char × List Char))
    (Hm : ∀ prev s r rest, m prev s = some (r, rest) →
      r.length + rest.length < s.length) :
    ∀ prev s r rest, m prev s = some (r, rest) →
      r.length + rest.length ≤ s.length ∧ rest.length < s.length := by
  intro prev s r rest h
  have := Hm prev s r rest h
  omega

theorem optimizePipeline_length_le (aggressive : Bool) (t : List Char) :
    (optimizePipeline aggressive t).length ≤ t.length := by
  have h1 : (stripWs (collapseWs t)).length ≤ t.length :=
    le_trans (stripWs_length_le _) (collapseWs_length_le t)
  have h2 := applyCompressions_length_le (stripWs (collapseWs t))
  have h3 := pySub_length_le dotsMatch (strict_to_nonexp _ dotsMatch_strict)
    (applyCompressions (stripWs (collapseWs t)))
  have h4 := pySub_length_le spacePunctMatch (strict_to_nonexp _ spacePunctMatch_strict)
    (pySub dotsMatch (applyCompressions (stripWs (collapseWs t))))
  have h5 := pySub_length_le nlMatch (strict_to_nonexp _ nlMatch_strict)
    (pySub spacePunctMatch (pySub dotsMatch (applyCompressions (stripWs (collapseWs t)))))
  have h6 := aggressiveCompress_length_le
    (pySub nlMatch (pySub spacePunctMatch (pySub dotsMatch
      (applyCompressions (stripWs (collapseWs t))))))
  unfold optimizePipeline
  split
  · omega
  · omega

/-- `PromptOptimizer.optimize` never lengthens the text. -/
theorem optimize_text_length_le (aggressive : Bool) (t : List Char) :
    (optimize aggressive t).text.length ≤ t.length :=
  optimizePipeline_length_le aggressive t

/-- C3 counterexample: on `"a      b"` the optimizer collapses six spaces
to one; its reported `tokens_saved` is `(8 - 3) // 4 = 1`, while the
script-aware estimator difference is `3 - 1 = 2`.  The optimizer does
NOT reuse the router's estimator. -/
theorem C3_counterexample :
    (optimize false "a      b".data).tokens_saved = 1 ∧
    (estimateTokens "a      b".data : Int) -
      (estimateTokens (optimize false "a      b".data).text : Int) = 2 ∧
    (optimize false "a      b".data).tokens_saved ≠
      max 0 ((estimateTokens "a      b".data : Int) -
        (estimateTokens (optimize false "a      b".data).text : Int)) :=
  ⟨by decide, by decide, by decide⟩

/-- C3 (amended): `tokens_saved` is the flat 4-characters-per-token
heuristic applied to the length difference,
`max(0, (len(original) - len(optimized)) // 4)`; since optimization
never lengthens the text this equals the natural-number division
`(len(original) - len(optimized)) / 4`, and in particular is never
negative.  It is not computed with the script-aware estimator. -/
theorem natCast_fdiv (a b : Nat) :
    ((a : Int)).fdiv (b : Int) = ((a / b : Nat) : Int) := (Int.ofNat_fdiv a b).symm

theorem C3_tokens_saved_flat (aggressive : Bool) (t : List Char) :
    (optimize aggressive t).tokens_saved =
      ((t.length - (optimize aggressive t).text.length) / 4 : Nat) ∧
    0 ≤ (optimize aggressive t).tokens_saved := by
  have hle := optimize_text_length_le aggressive t
  have htext : (optimize aggressive t).text = optimizePipeline aggressive t := rfl
  rw [htext] at hle
  have hsub : ((t.length : Int) - ((optimizePipeline aggressive t).length : Int)) =
      ((t.length - (optimizePipeline aggressive t).length : Nat) : Int) := by
    omega
  have hts : (optimize aggressive t).tokens_saved =
      max 0 (((t.length : Int) - ((optimizePipeline aggressive t).length : Int)).fdiv 4) := rfl
  rw [hts, hsub, show ((4 : Int)) = ((4 : Nat) : Int) from rfl, natCast_fdiv]
  constructor
  · rw [htext]
    exact max_eq_right (Int.natCast_nonneg _)
  · exact le_max_left 0 _

/-- After the first pass, every whitespace character is a plain space:
step 1 collapses all whitespace (including newlines and tabs) to single
spaces and no later rewrite introduces any other whitespace. -/
def SpOk (c : Char) : Prop := pyIsSpace c = true → c = ' '

instance (c : Char) : Decidable (SpOk c) :=
  inferInstanceAs (Decidable (pyIsSpace c = true → c = ' '))

theorem collapseWsGo_spok : ∀ (b : Bool) (s : List Char), ∀ x ∈ collapseWsGo b s, SpOk x := by
  intro b s
  induction s generalizing b with
  | nil => simp [collapseWsGo]
  | cons c cs ih =>
    by_cases hc : pyIsSpace c
    · cases b with
      | true =>
        simp only [collapseWsGo, hc, if_true]
        exact ih true
      | false =>
        simp only [collapseWsGo, hc, if_true]
        intro x hx
        rcases List.mem_cons.mp hx with rfl | hx
        · exact fun _ => rfl
        · exact ih true x hx
    · simp only [collapseWsGo, hc, if_false]
      intro x hx
      rcases List.mem_cons.mp hx with rfl | hx
      · exact fun h => absurd h (by simpa using hc)
      · exact ih false x hx

theorem stripWs_subset (s : List Char) : ∀ x ∈ stripWs s, x ∈ s := by
  intro x hx
  unfold stripWs at hx
  rw [List.mem_reverse] at hx
  have hx2 := List.dropWhile_subset pyIsSpace hx
  rw [List.mem_reverse] at hx2
  exact List.dropWhile_subset pyIsSpace hx2

theorem compMatch_pred (p : List (List Char)) (repl : List Char)
    (hrepl : ∀ c ∈ repl, SpOk c) :
    ∀ prev s r rest, (∀ c ∈ s, SpOk c) → compMatch p repl prev s = some (r, rest) →
      (∀ c ∈ r, SpOk c) ∧ (∀ c ∈ rest, c ∈ s) := by
  intro prev s r rest _ h
  simp only [compMatch, Option.map_eq_some'] at h
  obtain ⟨a, hmw, heq⟩ := h
  obtain ⟨rfl, rfl⟩ := Prod.mk.injEq .. ▸ heq
  exact ⟨hrepl, matchWords_mem p s a hmw⟩

theorem dotsMatch_pred :
    ∀ prev s r rest, (∀ c ∈ s, SpOk c) → dotsMatch prev s = some (r, rest) →
      (∀ c ∈ r, SpOk c) ∧ (∀ c ∈ rest, c ∈ s) := by
  intro prev s r rest _ h
  unfold dotsMatch at h
  split at h
  next rest0 =>
    obtain ⟨rfl, rfl⟩ := Prod.mk.injEq .. ▸ (Option.some.injEq .. ▸ h)
    constructor
    · intro c hc
      rcases List.mem_singleton.mp hc with rfl
      exact fun hsp => absurd hsp (by decide)
    · intro c hc
      have := List.dropWhile_subset _ hc
      simp [this]
  next => exact absurd h (by simp)

theorem spacePunctMatch_pred :
    ∀ prev s r rest, (∀ c ∈ s, SpOk c) → spacePunctMatch prev s = some (r, rest) →
      (∀ c ∈ r, SpOk c) ∧ (∀ c ∈ rest, c ∈ s) := by
  intro prev s r rest hs h
  unfold spacePunctMatch at h
  split at h
  next c cs =>
    by_cases hc : pyIsSpace c
    · rw [if_pos hc] at h
      split at h
      next p rest0 hdw =>
        by_cases hp : isPunctCh p
        · rw [if_pos hp] at h
          obtain ⟨rfl, rfl⟩ := Prod.mk.injEq .. ▸ (Option.some.injEq .. ▸ h)
          have hpmem : p ∈ c :: cs := by
            have : p ∈ cs.dropWhile pyIsSpace := by rw [hdw]; exact List.mem_cons_self p rest0
            exact List.mem_cons_of_mem c (List.dropWhile_subset pyIsSpace this)
          constructor
          · intro x hx
            rcases List.mem_singleton.mp hx with rfl
            exact hs x hpmem
          · intro x hx
            have : x ∈ cs.dropWhile pyIsSpace := by
              rw [hdw]; exact List.mem_cons_of_mem p hx
            exact List.mem_cons_of_mem c (List.dropWhile_subset pyIsSpace this)
        · rw [if_neg hp] at h
          exact absurd h (by simp)
      next => exact absurd h (by simp)
    · rw [if_neg hc] at h
      exact absurd h (by simp)
  next => exact absurd h (by simp)

theorem nlMatch_pred :
    ∀ prev s r rest, (∀ c ∈ s, SpOk c) → nlMatch prev s = some (r, rest) →
      (∀ c ∈ r, SpOk c) ∧ (∀ c ∈ rest, c ∈ s) := by
  intro prev s r rest hs h
  unfold nlMatch at h
  split at h
  next rest0 =>
    have hnl := hs '\n' (List.mem_cons_self _ _)
    exact absurd (hnl (by decide)) (by decide)
  next => exact absurd h (by simp)

theorem fillerMatch_pred (w : List Char) :
    ∀ prev s r rest, (∀ c ∈ s, SpOk c) → fillerMatch w prev s = some (r, rest) →
      (∀ c ∈ r, SpOk c) ∧ (∀ c ∈ rest, c ∈ s) := by
  intro prev s r rest _ h
  unfold fillerMatch at h
  split at h
  · split at h
    next s1 hci =>
      split at h
      · obtain ⟨rfl, rfl⟩ := Prod.mk.injEq .. ▸ (Option.some.injEq .. ▸ h)
        constructor
        · intro x hx
          exact absurd hx (List.not_mem_nil x)
        · intro x hx
          exact matchCI_mem w s s1 hci x (List.dropWhile_subset pyIsSpace hx)
      · exact absurd h (by simp)
    next => exact absurd h (by simp)
  · exact absurd h (by simp)

/-- Every replacement text in the compression table consists of
non-whitespace characters and plain spaces only. -/
theorem compressions_repl_spok :
    ∀ pr ∈ COMPRESSIONS, ∀ c ∈ pr.2.data, SpOk c := by decide

theorem compFold_pred (l : List (List String × String))
    (hl : ∀ pr ∈ l, ∀ c ∈ pr.2.data, SpOk c) :
    ∀ s : List Char, (∀ c ∈ s, SpOk c) →
      ∀ x ∈ l.foldl (fun t pr => pySub (compMatch (pr.1.map String.data) pr.2.data) t) s,
        SpOk x := by
  induction l with
  | nil => intro s hs; simpa using hs
  | cons pr tail ih =>
    intro s hs
    simp only [List.foldl_cons]
    exact ih (fun q hq => hl q (List.mem_cons_of_mem pr hq)) _
      (pySub_pred SpOk _ (compMatch_pred _ _ (hl pr (List.mem_cons_self pr tail))) s hs)

theorem fillerFold_pred (l : List String) :
    ∀ s : List Char, (∀ c ∈ s, SpOk c) →
      ∀ x ∈ l.foldl (fun t w => pySub (fillerMatch w.data) t) s, SpOk x := by
  induction l with
  | nil => intro s hs; simpa using hs
  | cons w tail ih =>
    intro s hs
    simp only [List.foldl_cons]
    exact ih _ (pySub_pred SpOk _ (fillerMatch_pred w.data) s hs)

/-- Every character of the optimizer's output that is whitespace is a
plain space. -/
theorem optimizePipeline_spok (aggressive : Bool) (t : List Char) :
    ∀ x ∈ optimizePipeline aggressive t, SpOk x := by
  have h1 : ∀ x ∈ stripWs (collapseWs t), SpOk x := fun x hx =>
    collapseWsGo_spok false t x (stripWs_subset _ x hx)
  have h2 := compFold_pred COMPRESSIONS compressions_repl_spok _ h1
  have h3 := pySub_pred SpOk dotsMatch dotsMatch_pred _ h2
  have h4 := pySub_pred SpOk spacePunctMatch spacePunctMatch_pred _ h3
  have h5 := pySub_pred SpOk nlMatch nlMatch_pred _ h4
  unfold optimizePipeline
  split
  · exact fillerFold_pred FILLERS _ h5
  · exact h5

theorem collapseWsGo_len_eq_id : ∀ (s : List Char) (b : Bool), (∀ x ∈ s, SpOk x) →
    (collapseWsGo b s).length = s.length → collapseWsGo b s = s := by
  intro s
  induction s with
  | nil => intro b _ _; rfl
  | cons c cs ih =>
    intro b hs hlen
    by_cases hc : pyIsSpace c
    · have hc' : c = ' ' := hs c (List.mem_cons_self c cs) hc
      cases b with
      | true =>
        exfalso
        have hle := collapseWsGo_length_le true cs
        simp [collapseWsGo, hc] at hlen
        omega
      | false =>
        simp [collapseWsGo, hc] at hlen ⊢
        have := ih true (fun x hx => hs x (List.mem_cons_of_mem c hx)) (by omega)
        rw [this, hc']
        exact ⟨rfl, rfl⟩
    · simp [collapseWsGo, hc] at hlen ⊢
      have := ih false (fun x hx => hs x (List.mem_cons_of_mem c hx)) (by omega)
      rw [this]

theorem collapseWs_eq_or_lt (s : List Char) (hs : ∀ x ∈ s, SpOk x) :
    collapseWs s = s ∨ (collapseWs s).length < s.length := by
  rcases eq_or_lt_of_le (collapseWs_length_le s) with heq | hlt
  · left
    exact collapseWsGo_len_eq_id s false hs heq
  · right
    exact hlt

theorem dropWhile_len_eq_id (p : Char → Bool) (l : List Char)
    (h : (l.dropWhile p).length = l.length) : l.dropWhile p = l := by
  cases l with
  | nil => rfl
  | cons c cs =>
    by_cases hc : p c
    · exfalso
      rw [List.dropWhile_cons_of_pos hc] at h
      have := (List.dropWhile_sublist (l := cs) p).length_le
      simp at h
      omega
    · exact List.dropWhile_cons_of_neg hc

theorem stripWs_eq_or_lt (s : List Char) :
    stripWs s = s ∨ (stripWs s).length < s.length := by
  have hlen : (stripWs s).length =
      (((s.dropWhile pyIsSpace).reverse).dropWhile pyIsSpace).length := by
    unfold stripWs
    exact List.length_reverse _
  have h1 := (List.dropWhile_sublist (l := s) pyIsSpace).length_le
  have h2 := (List.dropWhile_sublist (l := (s.dropWhile pyIsSpace).reverse) pyIsSpace).length_le
  rw [List.length_reverse] at h2
  rcases eq_or_lt_of_le (le_trans h2 h1) with heq | hlt
  · left
    have ha : (s.dropWhile pyIsSpace).length = s.length := by omega
    have hb : (((s.dropWhile pyIsSpace).reverse).dropWhile pyIsSpace).length =
        ((s.dropWhile pyIsSpace).reverse).length := by
      rw [List.length_reverse]
      omega
    have ha' := dropWhile_len_eq_id pyIsSpace s ha
    have hb' := dropWhile_len_eq_id pyIsSpace ((s.dropWhile pyIsSpace).reverse) hb
    unfold stripWs
    rw [hb', ha', List.reverse_reverse]
  · right
    omega

/-- On text whose whitespace is already only plain spaces (in particular
on any output of the optimizer), one whole optimizer pass either returns
the text unchanged or strictly shortens it. -/
theorem optimizePipeline_eq_or_lt_of_spok (aggressive : Bool) (u : List Char)
    (hu : ∀ x ∈ u, SpOk x) :
    optimizePipeline aggressive u = u ∨
    (optimizePipeline aggressive u).length < u.length := by
  have hlen1 : (stripWs (collapseWs u)).length ≤ u.length :=
    le_trans (stripWs_length_le _) (collapseWs_length_le u)
  have d1 : stripWs (collapseWs u) = u ∨ (stripWs (collapseWs u)).length < u.length := by
    rcases collapseWs_eq_or_lt u hu with h | h
    · rw [h]
      exact stripWs_eq_or_lt u
    · right
      exact lt_of_le_of_lt (stripWs_length_le _) h
  have hlen2 : (applyCompressions (stripWs (collapseWs u))).length ≤ u.length :=
    le_trans (applyCompressions_length_le _) hlen1
  have d2 : applyCompressions (stripWs (collapseWs u)) = u ∨
      (applyCompressions (stripWs (collapseWs u))).length < u.length := by
    rcases d1 with h | h
    · rw [h]
      exact applyCompressions_eq_or_lt u
    · right
      exact lt_of_le_of_lt (applyCompressions_length_le _) h
  have hlen3 : (pySub dotsMatch (applyCompressions (stripWs (collapseWs u)))).length ≤
      u.length :=
    le_trans (pySub_length_le _ (strict_to_nonexp _ dotsMatch_strict) _) hlen2
  have d3 : pySub dotsMatch (applyCompressions (stripWs (collapseWs u))) = u ∨
      (pySub dotsMatch (applyCompressions (stripWs (collapseWs u)))).length < u.length := by
    rcases d2 with h | h
    · rw [h]
      exact pySub_eq_or_lt _ dotsMatch_strict u
    · right
      exact lt_of_le_of_lt (pySub_length_le _ (strict_to_nonexp _ dotsMatch_strict) _) h
  have hlen4 : (pySub spacePunctMatch (pySub dotsMatch
      (applyCompressions (stripWs (collapseWs u))))).length ≤ u.length :=
    le_trans (pySub_length_le _ (strict_to_nonexp _ spacePunctMatch_strict) _) hlen3
  have d4 : pySub spacePunctMatch (pySub dotsMatch
      (applyCompressions (stripWs (collapseWs u)))) = u ∨
      (pySub spacePunctMatch (pySub dotsMatch
        (applyCompressions (stripWs (collapseWs u))))).length < u.length := by
    rcases d3 with h | h
    · rw [h]
      exact pySub_eq_or_lt _ spacePunctMatch_strict u
    · right
      exact lt_of_le_of_lt (pySub_length_le _ (strict_to_nonexp _ spacePunctMatch_strict) _) h
  have d5 : pySub nlMatch (pySub spacePunctMatch (pySub dotsMatch
      (applyCompressions (stripWs (collapseWs u))))) = u ∨
      (pySub nlMatch (pySub spacePunctMatch (pySub dotsMatch
        (applyCompressions (stripWs (collapseWs u)))))).length < u.length := by
    rcases d4 with h | h
    · rw [h]
      exact pySub_eq_or_lt _ nlMatch_strict u
    · right
      exact lt_of_le_of_lt (pySub_length_le _ (strict_to_nonexp _ nlMatch_strict) _) h
  unfold optimizePipeline
  split
  · rcases d5 with h | h
    · rw [h]
      exact aggressiveCompress_eq_or_lt u
    · right
      exact lt_of_le_of_lt (aggressiveCompress_length_le _) h
  · exact d5

/-- All whitespace characters, for stating "equal up to whitespace". -/
def dropWsChars (s : List Char) : List Char := s.filter fun c => !(pyIsSpace c)

/-- C5 counterexample: on `"a . ."` the first pass produces `"a.."`
(space-before-punctuation removal) and the second pass produces `"a."`
(the first pass created a dot run that the second pass collapses), so
re-running `optimize` changes the text beyond whitespace. -/
theorem C5_counterexample :
    dropWsChars (optimize false ((optimize false "a . .".data).text)).text ≠
      dropWsChars (optimize false "a . .".data).text := by decide

/-- C5 (amended): `optimize` is not idempotent up to whitespace — a
second pass can collapse punctuation runs and apply further phrase
compressions created by the first pass — but iteration converges: a
second pass either returns the optimized text unchanged or strictly
decreases its length. -/
theorem C5_second_pass_converges (aggressive : Bool) (t : List Char) :
    (optimize aggressive ((optimize aggressive t).text)).text = (optimize aggressive t).text ∨
    (optimize aggressive ((optimize aggressive t).text)).text.length <
      (optimize aggressive t).text.length :=
  optimizePipeline_eq_or_lt_of_spok aggressive (optimizePipeline aggressive t)
    (optimizePipeline_spok aggressive t)

/-- The sentence-end markers of `ResponseTruncator.truncate`, in the
order the source iterates them (optimizer.py line 292). -/
def MARKERS : List (List Char) :=
  [['.', ' '], ['!', ' '], ['?', ' '], ['.', '\n'], ['!', '\n'], ['?', '\n']]

/-- Python `str.rfind`: the greatest index at which `pat` occurs in `s`
(`none` for Python's `-1`). -/
def rfind (pat s : List Char) : Option Nat :=
  ((List.range (s.length + 1)).filter fun i => (s.drop i).take pat.length = pat).getLast?

/-- The marker loop of the smart strategy (optimizer.py lines 292-295):
markers are tried in list order; the first whose last occurrence lies
strictly after half the character budget wins (`last_end > max_chars *
0.5`, exact in floating point, is `2 * i > mc`), cutting just after the
punctuation character. -/
def smartLoop (mc : Nat) (tr : List Char) : List (List Char) → Option (List Char)
  | [] => none
  | mk :: rest =>
    match rfind mk tr with
    | some i => if mc < 2 * i then some (tr.take (i + 1)) else smartLoop mc tr rest
    | none => smartLoop mc tr rest

/-- `ResponseTruncator.truncate` (optimizer.py lines 262-302).  The word
boundary test `last_space > max_chars * 0.7` is modelled exactly at the
rational threshold (`10 * j > 7 * mc`); Python's binary float threshold
can differ only at the measure-zero boundary `10 * j = 7 * mc`, which no
claim probes. -/
def truncate (text : List Char) (max_tokens : Nat) (strategy : String) : List Char :=
  if text.length ≤ max_tokens * 4 then text
  else if strategy = "hard" then text.take (max_tokens * 4) ++ "...".data
  else
    match smartLoop (max_tokens * 4) (text.take (max_tokens * 4)) MARKERS with
    | some res => res
    | none =>
      match rfind [' '] (text.take (max_tokens * 4)) with
      | some j =>
        if 7 * (max_tokens * 4) < 10 * j then
          (text.take (max_tokens * 4)).take j ++ "...".data
        else text.take (max_tokens * 4) ++ "...".data
      | none => text.take (max_tokens * 4) ++ "...".data

/-- C4 counterexample: with `max_tokens = 3` (budget 12) and text
`"abcdefg. i! x"`, the nearest sentence marker searching backward within
the budget is `"! "` at index 10 (accepted, since 2*10 > 12), so the
claim predicts the cut `take 11 = "abcdefg. i!"`; the code instead tries
`". "` first (index 7, also accepted) and returns `"abcdefg."`. -/
theorem C4_counterexample :
    truncate "abcdefg. i! x".data 3 "smart" = "abcdefg.".data ∧
    rfind ['!', ' '] ("abcdefg. i! x".data.take 12) = some 10 ∧
    12 < 2 * 10 ∧
    "abcdefg.".data ≠ ("abcdefg. i! x".data.take 12).take (10 + 1) :=
  ⟨by decide, by decide, by decide, by decide⟩

theorem smartLoop_eq_none (mc : Nat) (tr : List Char) :
    ∀ ms : List (List Char), (∀ mk ∈ ms, ∀ i, rfind mk tr = some i → 2 * i ≤ mc) →
      smartLoop mc tr ms = none := by
  intro ms
  induction ms with
  | nil => intro _; rfl
  | cons mk rest ih =>
    intro h
    unfold smartLoop
    cases hr : rfind mk tr with
    | none => exact ih fun q hq => h q (List.mem_cons_of_mem mk hq)
    | some i =>
      have h2 := h mk (List.mem_cons_self mk rest) i hr
      dsimp only
      rw [if_neg (by omega)]
      exact ih fun q hq => h q (List.mem_cons_of_mem mk hq)

/-- In the marker loop, if every marker before `mk` in the priority
list is rejected (absent, or with its last occurrence at or before half
the budget) and `mk` is accepted, the loop returns the cut just past
`mk`'s punctuation character. -/
theorem smartLoop_accept (mc : Nat) (tr : List Char) :
    ∀ (pre : List (List Char)) (mk : List Char) (post : List (List Char)),
      (∀ m ∈ pre, ∀ i, rfind m tr = some i → 2 * i ≤ mc) →
      ∀ i, rfind mk tr = some i → mc < 2 * i →
        smartLoop mc tr (pre ++ mk :: post) = some (tr.take (i + 1)) := by
  intro pre
  induction pre with
  | nil =>
    intro mk post _ i hi hacc
    rw [List.nil_append]
    unfold smartLoop
    rw [hi]
    dsimp only
    rw [if_pos hacc]
  | cons m0 rest ih =>
    intro mk post hpre i hi hacc
    rw [List.cons_append]
    unfold smartLoop
    cases hr : rfind m0 tr with
    | none =>
      dsimp only
      exact ih mk post (fun q hq => hpre q (List.mem_cons_of_mem m0 hq)) i hi hacc
    | some j =>
      have hj := hpre m0 (List.mem_cons_self m0 rest) j hr
      dsimp only
      rw [if_neg (by omega)]
      exact ih mk post (fun q hq => hpre q (List.mem_cons_of_mem m0 hq)) i hi hacc

/-- C4 (amended): if the text fits the 4-chars-per-token budget it is
returned unchanged; otherwise the markers are tried in priority order
`". "`, `"! "`, `"? "`, `".\n"`, `"!\n"`, `"?\n"` — not "nearest across
all markers" — and the first marker whose last occurrence lies strictly
after 50% of the budget wins (every earlier marker being absent or
rejected), the cut keeping the punctuation character and appending no
ellipsis; if no marker is accepted, the last space is used when strictly
beyond 70% of the budget, with an ellipsis appended; otherwise the
budget-length cut with an ellipsis. -/
theorem C4_smart_truncation (text : List Char) (mt : Nat) :
    (text.length ≤ mt * 4 → truncate text mt "smart" = text) ∧
    (mt * 4 < text.length →
      ∀ pre mk post, MARKERS = pre ++ mk :: post →
        (∀ m ∈ pre, ∀ i, rfind m (text.take (mt * 4)) = some i → 2 * i ≤ mt * 4) →
        ∀ i, rfind mk (text.take (mt * 4)) = some i → mt * 4 < 2 * i →
          truncate text mt "smart" = (text.take (mt * 4)).take (i + 1)) ∧
    (mt * 4 < text.length →
      (∀ mk ∈ MARKERS, ∀ i, rfind mk (text.take (mt * 4)) = some i → 2 * i ≤ mt * 4) →
      (∀ j, rfind [' '] (text.take (mt * 4)) = some j →
        (7 * (mt * 4) < 10 * j →
          truncate text mt "smart" = (text.take (mt * 4)).take j ++ "...".data) ∧
        (10 * j ≤ 7 * (mt * 4) →
          truncate text mt "smart" = text.take (mt * 4) ++ "...".data)) ∧
      (rfind [' '] (text.take (mt * 4)) = none →
        truncate text mt "smart" = text.take (mt * 4) ++ "...".data)) := by
  refine ⟨?_, ?_, ?_⟩
  · intro h
    unfold truncate
    rw [if_pos h]
  · intro hlen pre mk post hdecomp hpre i hi hacc
    unfold truncate
    rw [if_neg (by omega), if_neg (by decide), hdecomp,
      smartLoop_accept (mt * 4) (text.take (mt * 4)) pre mk post hpre i hi hacc]
  · intro hlen hmk
    have hsl := smartLoop_eq_none (mt * 4) (text.take (mt * 4)) MARKERS hmk
    refine ⟨?_, ?_⟩
    · intro j hj
      constructor
      · intro hacc
        unfold truncate
        rw [if_neg (by omega), if_neg (by decide), hsl]
        dsimp only
        rw [hj]
        dsimp only
        rw [if_pos hacc]
      · intro hrej
        unfold truncate
        rw [if_neg (by omega), if_neg (by decide), hsl]
        dsimp only
        rw [hj]
        dsimp only
        rw [if_neg (by omega)]
    · intro hnone
      unfold truncate
      rw [if_neg (by omega), if_neg (by decide), hsl]
      dsimp only
      rw [hnone]

theorem C4_smart_truncation_witness :
    truncate "ab".data 1 "smart" = "ab".data ∧
    truncate "abcdefg! i! xx".data 3 "smart" = ("abcdefg! i! xx".data.take 12).take (10 + 1) ∧
    truncate "abcde. gh".data 2 "smart" = ("abcde. gh".data.take 8).take (5 + 1) :=
  ⟨(C4_smart_truncation "ab".data 1).1 (by decide),
   (C4_smart_truncation "abcdefg! i! xx".data 3).2.1 (by decide)
     [['.', ' ']] ['!', ' '] [['?', ' '], ['.', '\n'], ['!', '\n'], ['?', '\n']] (by decide)
     (by
       intro m hm i hi
       rcases List.mem_singleton.mp hm with rfl
       rw [show rfind ['.', ' '] ("abcdefg! i! xx".data.take 12) = none from by decide] at hi
       simp at hi)
     10 (by decide) (by decide),
   (C4_smart_truncation "abcde. gh".data 2).2.1 (by decide)
     [] ['.', ' '] [['!', ' '], ['?', ' '], ['.', '\n'], ['!', '\n'], ['?', '\n']] (by decide)
     (by intro m hm i hi; exact absurd hm (List.not_mem_nil m))
     5 (by decide) (by decide)⟩


/-- A chat message as the summarizer sees it: a dict whose "role" and
"content" keys may be absent (`dict.get` returns `None`). -/
structure PyMsg where
  role : Option (List Char)
  content : Option (List Char)
  deriving DecidableEq

/-- Python slice `l[:-r]` (note `l[:-0] = []`, not `l`). -/
def pyTakeNeg {α : Type} (l : List α) (r : Nat) : List α :=
  if r = 0 then [] else l.take (l.length - r)

/-- Python slice `l[-r:]` (note `l[-0:] = l`). -/
def pyLastNeg {α : Type} (l : List α) (r : Nat) : List α :=
  if r = 0 then l else l.drop (l.length - r)

def upperChars (s : List Char) : List Char := s.map Char.toUpper

def isSystemMsg (m : PyMsg) : Bool := decide (m.role = some "system".data)

/-- One transcript line of `prepare_for_summary` (optimizer.py lines
204-209): skipped entirely when the content is empty (`if content:`),
otherwise `f"{role}: {content[:500]}"` with the role upper-cased and
defaulting to "unknown". -/
def lineOf (m : PyMsg) : Option (List Char) :=
  if (m.content.getD []) = [] then none
  else some (upperChars (m.role.getD "unknown".data) ++ ':' :: ' ' :: (m.content.getD []).take 500)

/-- `ConversationSummarizer.prepare_for_summary` (optimizer.py lines
179-213).  The source also computes `system_msgs` and `to_retain`, but
returns only `(to_summarize, conversation_text)`. -/
def prepareForSummary (retain : Nat) (messages : List PyMsg) : List PyMsg × List Char :=
  let conv := messages.filter fun m => !(isSystemMsg m)
  if conv.length ≤ retain then ([], [])
  else
    (pyTakeNeg conv retain,
     List.intercalate ['\n'] ((pyTakeNeg conv retain).filterMap lineOf))

/-- The synthetic user message wrapping a summary
(optimizer.py lines 242-245). -/
def mkSummaryMsg (summary : List Char) : PyMsg :=
  { role := some "user".data,
    content := some ("[Previous conversation summary: ".data ++ summary ++ [']']) }

/-- `ConversationSummarizer.build_summarized_context` (optimizer.py
lines 215-249). -/
def buildSummarizedContext (retain : Nat) (summary : List Char)
    (messages : List PyMsg) : List PyMsg :=
  let sys := messages.filter isSystemMsg
  let conv := messages.filter fun m => !(isSystemMsg m)
  let retained := if conv = [] then [] else pyLastNeg conv retain
  sys ++ (if summary = [] then [] else [mkSummaryMsg summary]) ++ retained

/-- Twelve non-system user messages, the third with empty content. -/
def msgsC7 : List PyMsg :=
  [⟨some "user".data, some "a".data⟩, ⟨some "user".data, some "b".data⟩,
   ⟨some "user".data, some "".data⟩, ⟨some "user".data, some "d".data⟩,
   ⟨some "user".data, some "e".data⟩, ⟨some "user".data, some "f".data⟩,
   ⟨some "user".data, some "g".data⟩, ⟨some "user".data, some "h".data⟩,
   ⟨some "user".data, some "i".data⟩, ⟨some "user".data, some "j".data⟩,
   ⟨some "user".data, some "k".data⟩, ⟨some "user".data, some "l".data⟩]

/-- C7 counterexample: with 12 non-system messages and `retain_last = 2`
the code does return 10 messages to summarize, but the transcript skips
the empty-content message (`if content:`), so it does not contain a line
for each of those 10 — the claim's "transcript containing exactly those
10" fails when a summarized message has empty content. -/
theorem C7_counterexample :
    (prepareForSummary 2 msgsC7).1.length = 10 ∧
    (prepareForSummary 2 msgsC7).2 =
      "USER: a\nUSER: b\nUSER: d\nUSER: e\nUSER: f\nUSER: g\nUSER: h\nUSER: i\nUSER: j".data ∧
    (prepareForSummary 2 msgsC7).2 ≠
      "USER: a\nUSER: b\nUSER: \nUSER: d\nUSER: e\nUSER: f\nUSER: g\nUSER: h\nUSER: i\nUSER: j".data :=
  ⟨by decide, by decide, by decide⟩

theorem filterMap_length_of_isSome {α β : Type} (f : α → Option β) :
    ∀ l : List α, (∀ x ∈ l, (f x).isSome) → (l.filterMap f).length = l.length := by
  intro l
  induction l with
  | nil => intro _; rfl
  | cons a l ih =>
    intro h
    cases hf : f a with
    | none =>
      have := h a (List.mem_cons_self a l)
      rw [hf] at this
      simp at this
    | some b =>
      simp only [List.filterMap_cons, hf, List.length_cons]
      rw [ih fun x hx => h x (List.mem_cons_of_mem a hx)]

/-- C7 (amended): for `retain_last ≥ 1` (Python's `[:-0]` slice makes
`retain_last = 0` degenerate), `prepare_for_summary` returns an empty
split when there are at most `retain_last` non-system messages, and
otherwise returns all but the last `retain_last` non-system messages
together with the transcript of exactly those messages whose content is
non-empty, each line being the upper-cased role, a colon-space, and at
most 500 characters of content; in the 12-message, `retain_last = 2`
scenario with all contents non-empty there are 10 messages to summarize
and exactly 10 transcript lines. -/
theorem C7_prepare_for_summary (retain : Nat) (messages : List PyMsg)
    (hr : 1 ≤ retain) :
    ((messages.filter fun m => !(isSystemMsg m)).length ≤ retain →
      prepareForSummary retain messages = ([], [])) ∧
    (retain < (messages.filter fun m => !(isSystemMsg m)).length →
      (prepareForSummary retain messages).1 =
        (messages.filter fun m => !(isSystemMsg m)).take
          ((messages.filter fun m => !(isSystemMsg m)).length - retain) ∧
      (prepareForSummary retain messages).2 =
        List.intercalate ['\n'] ((prepareForSummary retain messages).1.filterMap lineOf)) ∧
    (∀ m l, lineOf m = some l →
      l = upperChars (m.role.getD "unknown".data) ++ ':' :: ' ' :: (m.content.getD []).take 500 ∧
      ((m.content.getD []).take 500).length ≤ 500) ∧
    ((messages.filter fun m => !(isSystemMsg m)).length = 12 → retain = 2 →
      (∀ m ∈ messages.filter fun m => !(isSystemMsg m), (m.content.getD []) ≠ []) →
      (prepareForSummary retain messages).1.length = 10 ∧
      ((prepareForSummary retain messages).1.filterMap lineOf).length = 10) := by
  have htn : pyTakeNeg (messages.filter fun m => !(isSystemMsg m)) retain =
      (messages.filter fun m => !(isSystemMsg m)).take
        ((messages.filter fun m => !(isSystemMsg m)).length - retain) := by
    unfold pyTakeNeg
    rw [if_neg (by omega)]
  refine ⟨?_, ?_, ?_, ?_⟩
  · intro h
    unfold prepareForSummary
    rw [if_pos h]
  · intro h
    unfold prepareForSummary
    rw [if_neg (by omega)]
    exact ⟨htn, rfl⟩
  · intro m l h
    unfold lineOf at h
    split at h
    · exact absurd h (by simp)
    · refine ⟨(Option.some.injEq .. ▸ h).symm, ?_⟩
      rw [List.length_take]
      exact min_le_left _ _
  · intro h12 hr2 hcontent
    have hfst : (prepareForSummary retain messages).1 =
        (messages.filter fun m => !(isSystemMsg m)).take
          ((messages.filter fun m => !(isSystemMsg m)).length - retain) := by
      unfold prepareForSummary
      rw [if_neg (by omega)]
      exact htn
    have hlen : (prepareForSummary retain messages).1.length = 10 := by
      rw [hfst, List.length_take, h12, hr2]
      decide
    refine ⟨hlen, ?_⟩
    rw [filterMap_length_of_isSome lineOf _ ?_, hlen]
    intro x hx
    have hxconv : x ∈ messages.filter fun m => !(isSystemMsg m) := by
      rw [hfst] at hx
      exact List.take_subset _ _ hx
    have := hcontent x hxconv
    unfold lineOf
    rw [if_neg this]
    rfl

theorem C7_prepare_for_summary_witness :
    prepareForSummary 2 [(⟨some "user".data, some "hi".data⟩ : PyMsg)] = ([], []) :=
  (C7_prepare_for_summary 2 [⟨some "user".data, some "hi".data⟩] (by decide)).1 (by decide)

/-- A single non-system message, for the C10 counterexample. -/
def msgC10 : PyMsg := ⟨some "user".data, some "x".data⟩

/-- C10 counterexample: with `retain_last = 0`, Python's `[-0:]` slice
retains ALL non-system messages, so `build_summarized_context` with an
empty summary returns the message rather than the claim's "system
messages followed by the last 0 non-system messages" (the empty list). -/
theorem C10_counterexample :
    buildSummarizedContext 0 [] [msgC10] = [msgC10] ∧
    ([msgC10] : List PyMsg) ≠ [] :=
  ⟨by decide, by decide⟩

/-- C10 (amended): for `retain_last ≥ 1`, `build_summarized_context`
with an empty summary returns exactly the system messages followed by
the last `retain_last` non-system messages, with no synthetic summary
message; the bracketed summary message appears (between the two parts)
exactly when the summary is non-empty. -/
theorem C10_build_summarized_context (retain : Nat) (summary : List Char)
    (messages : List PyMsg) (hr : 1 ≤ retain) :
    (summary = [] →
      buildSummarizedContext retain summary messages =
        messages.filter isSystemMsg ++
          (messages.filter fun m => !(isSystemMsg m)).drop
            ((messages.filter fun m => !(isSystemMsg m)).length - retain)) ∧
    (summary ≠ [] →
      buildSummarizedContext retain summary messages =
        messages.filter isSystemMsg ++ mkSummaryMsg summary ::
          (messages.filter fun m => !(isSystemMsg m)).drop
            ((messages.filter fun m => !(isSystemMsg m)).length - retain)) := by
  have hret : (if (messages.filter fun m => !(isSystemMsg m)) = [] then []
      else pyLastNeg (messages.filter fun m => !(isSystemMsg m)) retain) =
      (messages.filter fun m => !(isSystemMsg m)).drop
        ((messages.filter fun m => !(isSystemMsg m)).length - retain) := by
    by_cases hconv : (messages.filter fun m => !(isSystemMsg m)) = []
    · rw [if_pos hconv, hconv]
      simp
    · rw [if_neg hconv]
      unfold pyLastNeg
      rw [if_neg (by omega)]
  constructor
  · intro hsum
    unfold buildSummarizedContext
    dsimp only
    rw [hret, if_pos hsum]
    simp
  · intro hsum
    unfold buildSummarizedContext
    dsimp only
    rw [hret, if_neg hsum]
    simp

theorem C10_build_summarized_context_witness :
    buildSummarizedContext 1 [] [msgC10] =
      ([msgC10].filter isSystemMsg) ++
        (([msgC10].filter fun m => !(isSystemMsg m)).drop
          (([msgC10].filter fun m => !(isSystemMsg m)).length - 1)) :=
  (C10_build_summarized_context 1 [] [msgC10] (by decide)).1 rfl

/-- Python's `round` to an integer: round half to even. -/
def pyRoundHalfEven (q : ℚ) : ℤ :=
  if q - ⌊q⌋ < 1 / 2 then ⌊q⌋
  else if 1 / 2 < q - ⌊q⌋ then ⌊q⌋ + 1
  else if ⌊q⌋ % 2 = 0 then ⌊q⌋ else ⌊q⌋ + 1

/-- `round(x, 6)` over exact rationals (see the float note in the
header). -/
def pyRound6 (q : ℚ) : ℚ := (pyRoundHalfEven (q * 1000000) : ℚ) / 1000000

/-- Python's `in` on strings: substring containment. -/
def containsSub (w s : List Char) : Bool :=
  (List.range (s.length + 1)).any fun i => (s.drop i).take w.length = w

def lowerChars (s : List Char) : List Char := s.map Char.toLower

/-- The model-family price selection of `UsageMetrics._estimate_cost`
(router.py lines 277-297): COSTS table keyed by case-insensitive
substring, in source order, with the conservative fallback.  The
Python float literals 0.14/0.28, 0.25/1.25, 0.15/0.60, 0.0/0.0 and
0.50/1.50 are written as exact fractions. -/
def priceFor (model : String) : ℚ × ℚ :=
  if containsSub "deepseek".data (lowerChars model.data) then (14 / 100, 28 / 100)
  else if containsSub "haiku".data (lowerChars model.data) then (25 / 100, 125 / 100)
  else if containsSub "gpt-4o-mini".data (lowerChars model.data) then (15 / 100, 60 / 100)
  else if containsSub "groq".data (lowerChars model.data) then (0, 0)
  else (50 / 100, 150 / 100)

/-- `UsageMetrics._estimate_cost` (router.py lines 267-301):
`round((input_tokens * input_cost + output_tokens * output_cost) / 1_000_000, 6)`. -/
def estimateCost (model : String) (input_tokens output_tokens : Nat) : ℚ :=
  pyRound6 ((input_tokens * (priceFor model).1 + output_tokens * (priceFor model).2) / 1000000)

/-- `UsageMetrics` (router.py lines 254-262). -/
structure UsageMetrics where
  model : String
  tier : RoutingTier
  input_tokens : Nat
  output_tokens : Nat
  latency_ms : Nat
  estimated_cost_usd : ℚ

/-- Construction of a `UsageMetrics`: `__post_init__` (router.py lines
264-265) overwrites whatever `estimated_cost_usd` the caller passed with
the recomputed estimate. -/
def mkUsageMetrics (model : String) (tier : RoutingTier)
    (input_tokens output_tokens latency_ms : Nat)
    (_passed_cost : ℚ) : UsageMetrics :=
  { model := model, tier := tier, input_tokens := input_tokens,
    output_tokens := output_tokens, latency_ms := latency_ms,
    estimated_cost_usd := estimateCost model input_tokens output_tokens }

/-- C9: however a `UsageMetrics` is constructed, its stored cost is the
recomputed `(i * input_price + o * output_price) / 1e6` rounded to six
decimals, with prices chosen by case-insensitive model-family substring
(deepseek, haiku, gpt-4o-mini, groq, conservative fallback); the passed
cost value is ignored, so the field cannot be forged. -/
theorem C9_cost_invariant (model : String) (tier : RoutingTier)
    (i o lat : Nat) (passed passed2 : ℚ) :
    (mkUsageMetrics model tier i o lat passed).estimated_cost_usd =
      pyRound6 ((i * (priceFor model).1 + o * (priceFor model).2) / 1000000) ∧
    (mkUsageMetrics model tier i o lat passed).estimated_cost_usd =
      (mkUsageMetrics model tier i o lat passed2).estimated_cost_usd ∧
    priceFor "deepseek/deepseek-chat" = (14 / 100, 28 / 100) ∧
    priceFor "anthropic/claude-3-haiku-20240307" = (25 / 100, 125 / 100) ∧
    priceFor "openai/gpt-4o-mini" = (15 / 100, 60 / 100) ∧
    priceFor "groq/llama-3.3-70b-versatile" = (0, 0) ∧
    priceFor "mistral/mistral-large-2407" = (50 / 100, 150 / 100) := by
  refine ⟨rfl, rfl, ?_, ?_, ?_, ?_, ?_⟩
  · unfold priceFor
    rw [if_pos (by decide)]
  · unfold priceFor
    rw [if_neg (by decide), if_pos (by decide)]
  · unfold priceFor
    rw [if_neg (by decide), if_neg (by decide), if_pos (by decide)]
  · unfold priceFor
    rw [if_neg (by decide), if_neg (by decide), if_neg (by decide), if_pos (by decide)]
  · unfold priceFor
    rw [if_neg (by decide), if_neg (by decide), if_neg (by decide), if_neg (by decide)]

/-- `UsageTracker` state (router.py lines 311-317); the wall-clock
`_start_time` is irrelevant to every claim and not modelled. -/
structure UsageTracker where
  total_input_tokens : Nat
  total_output_tokens : Nat
  total_cost_usd : ℚ
  request_count : Nat
  metrics_history : List UsageMetrics

/-- `UsageTracker.__init__`. -/
def initTracker : UsageTracker :=
  { total_input_tokens := 0, total_output_tokens := 0, total_cost_usd := 0,
    request_count := 0, metrics_history := [] }

/-- `UsageTracker.record` (router.py lines 319-329): fold the metrics
into the totals, append to the history, and pop the oldest entry when
the history exceeds 100. -/
def record (t : UsageTracker) (m : UsageMetrics) : UsageTracker :=
  { total_input_tokens := t.total_input_tokens + m.input_tokens,
    total_output_tokens := t.total_output_tokens + m.output_tokens,
    total_cost_usd := t.total_cost_usd + m.estimated_cost_usd,
    request_count := t.request_count + 1,
    metrics_history :=
      if 100 < (t.metrics_history ++ [m]).length then (t.metrics_history ++ [m]).drop 1
      else t.metrics_history ++ [m] }

def recordAll (t : UsageTracker) (ms : List UsageMetrics) : UsageTracker :=
  ms.foldl record t

/-- C6: after recording any sequence of N metrics on a fresh tracker,
`request_count = N` and the history is exactly the last `min N 100`
recorded metrics in order (`drop (N - 100)` of the sequence), so it has
length `min N 100` — ring-buffer semantics with the oldest evicted
first. -/
theorem C6_tracker_ring_buffer (ms : List UsageMetrics) :
    (recordAll initTracker ms).request_count = ms.length ∧
    (recordAll initTracker ms).metrics_history = ms.drop (ms.length - 100) ∧
    (recordAll initTracker ms).metrics_history.length = min ms.length 100 := by
  induction ms using List.reverseRecOn with
  | nil => exact ⟨rfl, rfl, rfl⟩
  | append_singleton ms m ih =>
    obtain ⟨ihc, ihh, ihl⟩ := ih
    have hrec : recordAll initTracker (ms ++ [m]) = record (recordAll initTracker ms) m := by
      simp [recordAll, List.foldl_append]
    rw [hrec]
    have hcount : (record (recordAll initTracker ms) m).request_count = (ms ++ [m]).length := by
      show (recordAll initTracker ms).request_count + 1 = (ms ++ [m]).length
      rw [ihc, List.length_append]
      rfl
    have hhist : (record (recordAll initTracker ms) m).metrics_history =
        (ms ++ [m]).drop ((ms ++ [m]).length - 100) := by
      show (if 100 < ((recordAll initTracker ms).metrics_history ++ [m]).length
          then ((recordAll initTracker ms).metrics_history ++ [m]).drop 1
          else (recordAll initTracker ms).metrics_history ++ [m]) =
        (ms ++ [m]).drop ((ms ++ [m]).length - 100)
      rw [List.length_append, ihh]
      simp only [List.length_append, List.length_singleton, List.length_drop] at ihl ⊢
      by_cases hcase : ms.length < 100
      · rw [if_neg (by omega)]
        have h0 : ms.length - 100 = 0 := by omega
        have h1 : ms.length + 1 - 100 = 0 := by omega
        rw [h0, h1, List.drop_zero, List.drop_zero]
      · rw [if_pos (by omega)]
        rw [List.drop_append_eq_append_drop, List.drop_append_eq_append_drop,
          List.drop_drop, List.length_drop]
        have e1 : ms.length - 100 + 1 = ms.length + 1 - 100 := by omega
        have e2 : 1 - (ms.length - (ms.length - 100)) = 0 := by omega
        have e3 : ms.length + 1 - 100 - ms.length = 0 := by omega
        rw [e1, e2, e3, List.drop_zero]
    refine ⟨hcount, hhist, ?_⟩
    rw [hhist, List.length_drop, List.length_append, List.length_singleton]
    omega
